import Mathlib

/-!
Verification development for the `bake` configuration-resolution engine of
docker-buildx (package `bake`, file `bake.go`).

The Go code is shallowly embedded:
* Go `nil` slices and maps are modelled as empty lists (the two are
  indistinguishable for every code path exercised here);
* Go maps become association lists with `mapGet`/`mapSet`/insert-order
  iteration (Go's map iteration order is unspecified; the scenarios proved
  below use at most single-entry maps, where the order is immaterial);
* Go pointers `*string`/`*bool` become `Option`;
* fallible functions return `Except String`;
* the two recursions that Go bounds with a `visited` memo map
  (`Config.target`, `Config.group`, `Config.loadLinks`) take an explicit
  fuel argument; fuel sufficiency for `group` is proved below.

External collaborators that are not part of this repository's sources
(`util/buildflags` parsers, the entitlements package constants, the
csv-value splitter) are modelled from the spec, each marked with a
`Modelled from the spec:` doc comment.
-/

namespace Bake

deriving instance DecidableEq for Except

/-- Split a character list at every occurrence of `sep` (all separators
used by bake.go — `"."`, `"="`, `","` — are single characters). -/
def splitOnChar (sep : Char) : List Char → List Char → List (List Char)
  | [], cur => [cur.reverse]
  | c :: rest, cur =>
    if c = sep then cur.reverse :: splitOnChar sep rest []
    else splitOnChar sep rest (c :: cur)

/-- Go `strings.Split(s, sep)` for a single-character separator. -/
def goSplit (s : String) (sep : Char) : List String :=
  (splitOnChar sep s.data []).map String.mk

/-- Go `strings.SplitN(s, sep, n)` for `n > 0` and a single-character
separator: at most `n` substrings, the last one being the unsplit
remainder. -/
def goSplitN (s : String) (sep : Char) (n : Nat) : List String :=
  let parts := goSplit s sep
  if parts.length ≤ n then parts
  else
    parts.take (n - 1) ++
      [String.intercalate (String.mk [sep]) (parts.drop (n - 1))]

/-- Go `strings.HasPrefix` (ASCII inputs only are used here, so bytes and
characters coincide). -/
def hasPfx (s pre : String) : Bool :=
  pre.data.isPrefixOf s.data

/-- Go `strings.TrimPrefix` (ASCII inputs only are used here). -/
def trimPfx (s pre : String) : String :=
  if pre.data.isPrefixOf s.data then String.mk (s.data.drop pre.data.length)
  else s

/-- Go `strconv.ParseBool`. -/
def goParseBool (s : String) : Option Bool :=
  if s ∈ ["1", "t", "T", "TRUE", "true", "True"] then some true
  else if s ∈ ["0", "f", "F", "FALSE", "false", "False"] then some false
  else none

/-- Lookup in a Go map modelled as an association list. -/
def mapGet {α : Type} (m : List (String × α)) (k : String) : Option α :=
  match m with
  | [] => none
  | (k2, v) :: rest => if k2 == k then some v else mapGet rest k

/-- Go map assignment `m[k] = v`: update in place if present, append if new. -/
def mapSet {α : Type} (m : List (String × α)) (k : String) (v : α) :
    List (String × α) :=
  match m with
  | [] => [(k, v)]
  | (k2, w) :: rest =>
    if k2 == k then (k2, v) :: rest else (k2, w) :: mapSet rest k v

/-- `dedupSlice` from bake.go: keep the first occurrence of each value. -/
def dedupAux : List String → List String → List String
  | [], _ => []
  | v :: rest, seen =>
    if seen.contains v then dedupAux rest seen
    else v :: dedupAux rest (v :: seen)

def dedupSlice (s : List String) : List String :=
  dedupAux s []

/-- `removeDupes` from bake.go: drop duplicates and empty strings, keeping
first occurrences.  (The Go original compacts the slice in place; the value
it returns, `s[:i]`, is exactly this list — the in-place writes are the
subject of claim C5 and are modelled separately at the store level below.) -/
def removeDupesAux : List String → List String → List String
  | [], _ => []
  | v :: rest, seen =>
    if seen.contains v then removeDupesAux rest seen
    else if v == "" then removeDupesAux rest seen
    else v :: removeDupesAux rest (v :: seen)

def removeDupes (s : List String) : List String :=
  removeDupesAux s []

/-- Modelled from the spec: stand-in for the external attestation parser
(`buildflags.ParseAttest`, not part of this repository's sources).  It
extracts the attestation `type` field from a comma-separated `key=value`
string; `none` corresponds to the parser returning an error. -/
def parseAttestType (s : String) : Option String :=
  (goSplit s ',').findSome? fun f =>
    match goSplitN f '=' 2 with
    | [k, v] => if k == "type" then some v else none
    | _ => none

/-- `removeAttestDupes` from bake.go: unparsable entries are kept; for
parsable ones, the last value per attestation type wins, placed at the
first occurrence's index. -/
def removeAttestDupesAux : List String → List (String × Nat) → List String → List String
  | [], _, res => res
  | v :: rest, m, res =>
    match parseAttestType v with
    | none => removeAttestDupesAux rest m (res ++ [v])
    | some ty =>
      match mapGet m ty with
      | some i => removeAttestDupesAux rest m (res.set i v)
      | none => removeAttestDupesAux rest (mapSet m ty res.length) (res ++ [v])

def removeAttestDupes (s : List String) : List String :=
  removeAttestDupesAux s [] []

/-- Lexicographic `≤` on character lists (ASCII byte comparison, matching
Go's string ordering for the ASCII inputs used here). -/
def charListLe : List Char → List Char → Bool
  | [], _ => true
  | _ :: _, [] => false
  | a :: as, b :: bs =>
    if a < b then true else if b < a then false else charListLe as bs

/-- Go string `<=`. -/
def strLe (a b : String) : Bool :=
  charListLe a.data b.data

def insertSorted (x : String) : List String → List String
  | [] => [x]
  | y :: ys => if strLe x y then x :: y :: ys else y :: insertSorted x ys

/-- Ascending sort used to model Go `sort.Strings`: only the sorted result
matters for `sliceEqual`'s comparison (any sorting algorithm yields the
same sorted sequence); the in-place aspect is part of claim C5's
store-level model. -/
def sortStrings (s : List String) : List String :=
  s.foldr insertSorted []

/-- `sliceEqual` from bake.go: length check, sort both, compare pointwise. -/
def sliceEqual (s1 s2 : List String) : Bool :=
  if s1.length ≠ s2.length then false
  else
    let t1 := sortStrings s1
    let t2 := sortStrings s2
    (t1.zip t2).all fun p => p.1 == p.2

/-- `Override` from bake.go: a single scalar value (last write wins) plus an
accumulated list value for the list-accumulating override keys. -/
structure Override where
  Value : String := ""
  ArrValue : List String := []
deriving Repr, DecidableEq

/-- Modelled from the spec: `EntitlementConf` (declared in the bake
package's entitlements file, which is not among the provided sources) —
accumulates filesystem read/write paths and the two privilege flags,
append-only. -/
structure EntitlementConf where
  NetworkHost : Bool := false
  SecurityInsecure : Bool := false
  FSRead : List String := []
  FSWrite : List String := []
deriving Repr, DecidableEq

/-- Modelled from the spec: the well-known entitlement strings of the
external entitlements package. -/
def EntitlementKeyNetworkHost : String := "network.host"

/-- Modelled from the spec: see `EntitlementKeyNetworkHost`. -/
def EntitlementKeySecurityInsecure : String := "security.insecure"

/-- `Group` from bake.go. -/
structure Group where
  Name : String := ""
  Description : String := ""
  Targets : List String := []
deriving Repr, DecidableEq

/-- `Target` from bake.go.  The Go field `Target` (the build stage) is
renamed `TargetStage` because the structure itself is called `Target`;
`linked` is the private marker for targets that exist only as link
dependencies. -/
structure Target where
  Name : String := ""
  Description : String := ""
  Inherits : List String := []
  Annotations : List String := []
  Attest : List String := []
  Context : Option String := none
  Contexts : List (String × String) := []
  Dockerfile : Option String := none
  DockerfileInline : Option String := none
  Args : List (String × Option String) := []
  Labels : List (String × Option String) := []
  Tags : List String := []
  CacheFrom : List String := []
  CacheTo : List String := []
  TargetStage : Option String := none
  Secrets : List String := []
  SSH : List String := []
  Platforms : List String := []
  Outputs : List String := []
  Pull : Option Bool := none
  NoCache : Option Bool := none
  NetworkMode : Option String := none
  NoCacheFilter : List String := []
  ShmSize : Option String := none
  Ulimits : List String := []
  Call : Option String := none
  Entitlements : List String := []
  linked : Bool := false
deriving Repr, DecidableEq

/-- `Config` from bake.go (slices of pointers are modelled as lists of
values). -/
structure Config where
  Groups : List Group := []
  Targets : List Target := []
deriving Repr, DecidableEq

/-- The `Args`/`Labels` merge loops of `Target.Merge`: map union where the
source overwrites on key collision and `nil` source values are skipped. -/
def mergeOptMap (dst src : List (String × Option String)) :
    List (String × Option String) :=
  src.foldl
    (fun acc kv =>
      match kv.2 with
      | none => acc
      | some v => mapSet acc kv.1 (some v))
    dst

/-- The `Contexts` merge loop of `Target.Merge`: map union, source
overwrites on key collision. -/
def mergeStrMap (dst src : List (String × String)) : List (String × String) :=
  src.foldl (fun acc kv => mapSet acc kv.1 kv.2) dst

/-- `Target.Merge` from bake.go: combine `t2` into `t`, `t2` taking
precedence.  Pointer-valued fields are replace-if-set; the slice fields
follow the source's per-field merge/no-merge table (a `nil` check in Go is
an `≠ []` check here, since nil is modelled as the empty list); `Name` and
`linked` are untouched. -/
def Target.Merge (t t2 : Target) : Target :=
  { t with
    Context := if t2.Context.isSome then t2.Context else t.Context
    Dockerfile := if t2.Dockerfile.isSome then t2.Dockerfile else t.Dockerfile
    DockerfileInline :=
      if t2.DockerfileInline.isSome then t2.DockerfileInline
      else t.DockerfileInline
    Args := mergeOptMap t.Args t2.Args
    Contexts := mergeStrMap t.Contexts t2.Contexts
    Labels := mergeOptMap t.Labels t2.Labels
    Tags := if t2.Tags ≠ [] then t2.Tags else t.Tags
    TargetStage := if t2.TargetStage.isSome then t2.TargetStage else t.TargetStage
    Call := if t2.Call.isSome then t2.Call else t.Call
    Annotations :=
      if t2.Annotations ≠ [] then t.Annotations ++ t2.Annotations
      else t.Annotations
    Attest :=
      if t2.Attest ≠ [] then removeAttestDupes (t.Attest ++ t2.Attest)
      else t.Attest
    Secrets := if t2.Secrets ≠ [] then t.Secrets ++ t2.Secrets else t.Secrets
    SSH := if t2.SSH ≠ [] then t.SSH ++ t2.SSH else t.SSH
    Platforms := if t2.Platforms ≠ [] then t2.Platforms else t.Platforms
    CacheFrom :=
      if t2.CacheFrom ≠ [] then t.CacheFrom ++ t2.CacheFrom else t.CacheFrom
    CacheTo := if t2.CacheTo ≠ [] then t2.CacheTo else t.CacheTo
    Outputs := if t2.Outputs ≠ [] then t2.Outputs else t.Outputs
    Pull := if t2.Pull.isSome then t2.Pull else t.Pull
    NoCache := if t2.NoCache.isSome then t2.NoCache else t.NoCache
    NetworkMode := if t2.NetworkMode.isSome then t2.NetworkMode else t.NetworkMode
    NoCacheFilter :=
      if t2.NoCacheFilter ≠ [] then t.NoCacheFilter ++ t2.NoCacheFilter
      else t.NoCacheFilter
    ShmSize := if t2.ShmSize.isSome then t2.ShmSize else t.ShmSize
    Ulimits := if t2.Ulimits ≠ [] then t.Ulimits ++ t2.Ulimits else t.Ulimits
    Description := if t2.Description ≠ "" then t2.Description else t.Description
    Entitlements :=
      if t2.Entitlements ≠ [] then t.Entitlements ++ t2.Entitlements
      else t.Entitlements
    Inherits := t.Inherits ++ t2.Inherits }

/-- `Target.normalize` from bake.go: dedup every list field, imply the
`network.host` entitlement from `network-mode = "host"`, dedup
entitlements afterwards, and drop build-context entries with empty
values. -/
def Target.normalize (t : Target) : Target :=
  { t with
    Annotations := removeDupes t.Annotations
    Attest := removeAttestDupes t.Attest
    Tags := removeDupes t.Tags
    Secrets := removeDupes t.Secrets
    SSH := removeDupes t.SSH
    Platforms := removeDupes t.Platforms
    CacheFrom := removeDupes t.CacheFrom
    CacheTo := removeDupes t.CacheTo
    Outputs := removeDupes t.Outputs
    NoCacheFilter := removeDupes t.NoCacheFilter
    Ulimits := removeDupes t.Ulimits
    Entitlements :=
      removeDupes
        (if t.NetworkMode == some "host" then t.Entitlements ++ ["network.host"]
         else t.Entitlements)
    Contexts := t.Contexts.filter fun p => p.2 ≠ "" }

/-- `defaultTarget` from bake.go: the zero-valued target. -/
def defaultTarget : Target := {}

/-- Modelled from the spec: stand-in for the external csv splitter
(`csvvalue.Fields`).  Quoting is not exercised by any claim, so fields are
plain comma-separated. -/
def csvFields (s : String) : List String :=
  goSplit s ','

/-- `parseOutput` from bake.go: split a csv output spec into its
`key=value` attributes (fields without `=` are ignored). -/
def parseOutput (str : String) : List (String × String) :=
  (csvFields str).foldl
    (fun res field =>
      match goSplitN field '=' 2 with
      | [k, v] => mapSet res k v
      | _ => res)
    []

/-- `parseOutputType` from bake.go: the `type` attribute of an output
spec, or `""`. -/
def parseOutputType (str : String) : String :=
  match mapGet (parseOutput str) "type" with
  | some v => v
  | none => ""

/-- One step of the `setPushOverride` loop; the state is
(accumulated outputs, current `setPush` flag). -/
def setPushStep (push : Bool) (acc : List String × Bool) (output : String) :
    List String × Bool :=
  let (out, setPush) := acc
  let typ := parseOutputType output
  if typ == "image" ∨ typ == "registry" then
    if typ == "registry" then
      if ¬ push then (out, false)
      else (out ++ [output], false)
    else (out ++ [output ++ ",push=" ++ (if push then "true" else "false")], false)
  else
    if typ ≠ "docker" then (out ++ [output], false)
    else (out ++ [output], setPush)

/-- `setPushOverride` from bake.go. -/
def setPushOverride (outputs : List String) (push : Bool) : List String :=
  let (out, setPush) := outputs.foldl (setPushStep push) ([], true)
  if push ∧ setPush then out ++ ["type=image,push=true"] else out

/-- The early-exit scan of `setLoadOverride`: decide whether to append
`type=docker`. -/
def setLoadScan : List String → Bool
  | [] => true
  | output :: rest =>
    let typ := parseOutputType output
    if typ == "docker" then
      if mapGet (parseOutput output) "dest" = none then false
      else setLoadScan rest
    else if typ ≠ "image" ∧ typ ≠ "registry" ∧ typ ≠ "oci" then false
    else setLoadScan rest

/-- `setLoadOverride` from bake.go. -/
def setLoadOverride (outputs : List String) (load : Bool) : List String :=
  if ¬ load then outputs
  else if setLoadScan outputs then outputs ++ ["type=docker"] else outputs

/-- Modelled from the spec: stand-in for `buildflags.ParseCacheEntry`
(external to these sources) — each entry is a csv list of `key=value`
attributes with a `type`; only the `type`/`src`/`dest` attributes matter to
the entitlement extraction in `AddOverrides`. -/
def parseCacheAttrs (vals : List String) : List (List (String × String)) :=
  vals.map parseOutput

/-- Modelled from the spec: stand-in for `buildflags.ParseSecretSpecs` —
yields each secret's file path (its `src` attribute). -/
def parseSecretPaths (vals : List String) : List String :=
  vals.foldl
    (fun acc v =>
      match mapGet (parseOutput v) "src" with
      | some p => acc ++ [p]
      | none => acc)
    []

/-- Modelled from the spec: stand-in for `buildflags.ParseSSHSpecs` —
yields each spec's socket/key paths (the comma-separated part after
`id=`). -/
def parseSSHPaths (vals : List String) : List String :=
  vals.foldl
    (fun acc v =>
      match goSplitN v '=' 2 with
      | [_, paths] => acc ++ goSplit paths ','
      | _ => acc)
    []

/-- Modelled from the spec: stand-in for `buildflags.ParseExports` —
yields each export's destination (its `dest` attribute). -/
def parseExportDests (vals : List String) : List String :=
  vals.foldl
    (fun acc v =>
      match mapGet (parseOutput v) "dest" with
      | some d => if d ≠ "" then acc ++ [d] else acc
      | none => acc)
    []

/-- The body of the `Target.AddOverrides` loop for a single override entry
(`key ↦ o`).  Returns the updated target and entitlement accumulator. -/
def Target.addOverride (t : Target) (key : String) (o : Override)
    (ent : EntitlementConf) : Except String (Target × EntitlementConf) :=
  let value := o.Value
  let keys := goSplitN key '.' 2
  let k0 := keys.getD 0 ""
  if k0 == "context" then .ok ({ t with Context := some value }, ent)
  else if k0 == "dockerfile" then .ok ({ t with Dockerfile := some value }, ent)
  else if k0 == "args" then
    if keys.length ≠ 2 then
      .error "invalid format for args, expecting args.<name>=<value>"
    else .ok ({ t with Args := mapSet t.Args (keys.getD 1 "") (some value) }, ent)
  else if k0 == "contexts" then
    if keys.length ≠ 2 then
      .error "invalid format for contexts, expecting contexts.<name>=<value>"
    else .ok ({ t with Contexts := mapSet t.Contexts (keys.getD 1 "") value }, ent)
  else if k0 == "labels" then
    if keys.length ≠ 2 then
      .error "invalid format for labels, expecting labels.<name>=<value>"
    else .ok ({ t with Labels := mapSet t.Labels (keys.getD 1 "") (some value) }, ent)
  else if k0 == "tags" then .ok ({ t with Tags := o.ArrValue }, ent)
  else if k0 == "cache-from" then
    let ent :=
      (parseCacheAttrs o.ArrValue).foldl
        (fun e attrs =>
          if mapGet attrs "type" = some "local" then
            match mapGet attrs "src" with
            | some v => { e with FSRead := e.FSRead ++ [v] }
            | none => e
          else e)
        ent
    .ok ({ t with CacheFrom := o.ArrValue }, ent)
  else if k0 == "cache-to" then
    let ent :=
      (parseCacheAttrs o.ArrValue).foldl
        (fun e attrs =>
          if mapGet attrs "type" = some "local" then
            match mapGet attrs "dest" with
            | some v => { e with FSWrite := e.FSWrite ++ [v] }
            | none => e
          else e)
        ent
    .ok ({ t with CacheTo := o.ArrValue }, ent)
  else if k0 == "target" then .ok ({ t with TargetStage := some value }, ent)
  else if k0 == "call" then .ok ({ t with Call := some value }, ent)
  else if k0 == "secrets" then
    let ent :=
      { ent with
        FSRead := ent.FSRead ++ (parseSecretPaths o.ArrValue).filter (· ≠ "") }
    .ok ({ t with Secrets := o.ArrValue }, ent)
  else if k0 == "ssh" then
    let ent := { ent with FSRead := ent.FSRead ++ parseSSHPaths o.ArrValue }
    .ok ({ t with SSH := o.ArrValue }, ent)
  else if k0 == "platform" then .ok ({ t with Platforms := o.ArrValue }, ent)
  else if k0 == "output" then
    let ent := { ent with FSWrite := ent.FSWrite ++ parseExportDests o.ArrValue }
    .ok ({ t with Outputs := o.ArrValue }, ent)
  else if k0 == "entitlements" then
    let ent :=
      o.ArrValue.foldl
        (fun e v =>
          if v == EntitlementKeyNetworkHost then { e with NetworkHost := true }
          else if v == EntitlementKeySecurityInsecure then
            { e with SecurityInsecure := true }
          else e)
        ent
    .ok ({ t with Entitlements := t.Entitlements ++ o.ArrValue }, ent)
  else if k0 == "annotations" then
    .ok ({ t with Annotations := t.Annotations ++ o.ArrValue }, ent)
  else if k0 == "attest" then
    .ok ({ t with Attest := t.Attest ++ o.ArrValue }, ent)
  else if k0 == "no-cache" then
    match goParseBool value with
    | none => .error ("invalid value " ++ value ++ " for boolean key no-cache")
    | some b => .ok ({ t with NoCache := some b }, ent)
  else if k0 == "no-cache-filter" then
    .ok ({ t with NoCacheFilter := o.ArrValue }, ent)
  else if k0 == "shm-size" then .ok ({ t with ShmSize := some value }, ent)
  else if k0 == "ulimits" then .ok ({ t with Ulimits := o.ArrValue }, ent)
  else if k0 == "network" then .ok ({ t with NetworkMode := some value }, ent)
  else if k0 == "pull" then
    match goParseBool value with
    | none => .error ("invalid value " ++ value ++ " for boolean key pull")
    | some b => .ok ({ t with Pull := some b }, ent)
  else if k0 == "push" then
    match goParseBool value with
    | none => .error ("invalid value " ++ value ++ " for boolean key push")
    | some b => .ok ({ t with Outputs := setPushOverride t.Outputs b }, ent)
  else if k0 == "load" then
    match goParseBool value with
    | none => .error ("invalid value " ++ value ++ " for boolean key load")
    | some b => .ok ({ t with Outputs := setLoadOverride t.Outputs b }, ent)
  else .error ("unknown key: " ++ k0)

/-- `Target.AddOverrides` from bake.go: apply every override entry in turn
(Go iterates the override map in unspecified order; here association-list
order, which is the accumulation order of `newOverrides`). -/
def Target.AddOverrides (t : Target) (overrides : List (String × Override))
    (ent : EntitlementConf) : Except String (Target × EntitlementConf) :=
  overrides.foldlM (fun acc kv => Target.addOverride acc.1 kv.1 kv.2 acc.2) (t, ent)

/-! ### Go `path.Match`, used by `Config.expandTargets`

Translated from the Go standard library's `path` package (an external
collaborator of bake.go, but its exact behaviour is what `expandTargets`
relies on).  Strings are handled as character lists; `Except Unit`
models `ErrBadPattern`. -/

/-- `getEsc` from Go `path`: read one (possibly escaped) character of a
character-class, requiring that something follows it. -/
def getEsc : List Char → Except Unit (Char × List Char)
  | [] => .error ()
  | c :: rest =>
    if c = '-' ∨ c = ']' then .error ()
    else if c = '\\' then
      match rest with
      | [] => .error ()
      | r :: rest2 => if rest2 = [] then .error () else .ok (r, rest2)
    else if rest = [] then .error () else .ok (c, rest)

/-- The character-class loop inside `matchChunk`: consume ranges until the
closing `]`; `r` is the candidate character.  Returns the rest of the
chunk and whether `r` matched some range.  Fuel only guards the loop
(every iteration consumes at least one chunk character). -/
def matchRanges : Nat → List Char → Char → Nat → Bool →
    Except Unit (List Char × Bool)
  | 0, _, _, _, _ => .error ()
  | fuel + 1, chunk, r, nrange, mtch =>
    match chunk with
    | ']' :: rest =>
      if nrange > 0 then .ok (rest, mtch)
      else .error ()
    | _ =>
      match getEsc chunk with
      | .error _ => .error ()
      | .ok (lo, chunk1) =>
        match chunk1 with
        | '-' :: chunk2 =>
          match getEsc chunk2 with
          | .error _ => .error ()
          | .ok (hi, chunk3) =>
            matchRanges fuel chunk3 r (nrange + 1)
              (mtch ∨ (lo ≤ r ∧ r ≤ hi))
        | _ => matchRanges fuel chunk1 r (nrange + 1) (mtch ∨ lo = r)

/-- `matchChunk` from Go `path`: match a wildcard-free chunk against the
beginning of `s`; returns the rest of `s` on success.  The `failed` flag
mirrors the Go original: after a mismatch the chunk is still scanned to
completion so that malformed patterns are reported. -/
def matchChunk : Nat → List Char → List Char → Bool →
    Except Unit (List Char × Bool)
  | 0, _, _, _ => .error ()
  | fuel + 1, chunk, s, failed =>
    match chunk with
    | [] => if failed then .ok ([], false) else .ok (s, true)
    | c :: chunkRest =>
      let failed := if ¬ failed ∧ s = [] then true else failed
      if c = '[' then
        let r := if failed then Char.ofNat 0 else s.headD (Char.ofNat 0)
        let s1 := if failed then s else s.tail
        let (negated, chunk1) :=
          match chunkRest with
          | '^' :: rest => (true, rest)
          | _ => (false, chunkRest)
        match matchRanges (chunk1.length + 1) chunk1 r 0 false with
        | .error _ => .error ()
        | .ok (chunk2, mtch) =>
          let failed := if mtch = negated then true else failed
          matchChunk fuel chunk2 s1 failed
      else if c = '?' then
        let s1 := if failed then s else s.tail
        matchChunk fuel chunkRest s1 failed
      else if c = '\\' then
        match chunkRest with
        | [] => .error ()
        | e :: chunkRest2 =>
          if failed then matchChunk fuel chunkRest2 s failed
          else
            match s with
            | [] => matchChunk fuel chunkRest2 [] true
            | sc :: sRest =>
              matchChunk fuel chunkRest2 sRest (if e ≠ sc then true else failed)
      else
        if failed then matchChunk fuel chunkRest s failed
        else
          match s with
          | [] => matchChunk fuel chunkRest [] true
          | sc :: sRest =>
            matchChunk fuel chunkRest sRest (if c ≠ sc then true else failed)

/-- The scan loop of `scanChunk`: cut the pattern at the first `*` that is
not inside a character class, keeping escape pairs together. -/
def scanChunkAux : Bool → List Char → List Char × List Char
  | _, [] => ([], [])
  | inrange, c :: rest =>
    if c = '\\' then
      match rest with
      | d :: rest2 =>
        let (chunk, r) := scanChunkAux inrange rest2
        (c :: d :: chunk, r)
      | [] => ([c], [])
    else if c = '[' then
      let (chunk, r) := scanChunkAux true rest
      (c :: chunk, r)
    else if c = ']' then
      let (chunk, r) := scanChunkAux false rest
      (c :: chunk, r)
    else if c = '*' ∧ ¬ inrange then ([], c :: rest)
    else
      let (chunk, r) := scanChunkAux inrange rest
      (c :: chunk, r)

/-- `scanChunk` from Go `path`: strip leading stars, then split the pattern
into the next literal chunk and the remainder. -/
def scanChunk : List Char → Bool × List Char × List Char
  | '*' :: rest =>
    let (_, chunk, p) := scanChunk rest
    (true, chunk, p)
  | pattern =>
    let (chunk, rest) := scanChunkAux false pattern
    (false, chunk, rest)

/-- The star-retry loop of `Match`: try `matchChunk` at every later
position of `name` (never crossing a `/`).  Returns `some rest` when a
position succeeds and the outer loop should continue with `rest`. -/
def starLoop (chunk : List Char) (restPat : List Char) :
    List Char → Except Unit (Option (List Char))
  | [] => .ok none
  | c :: nameRest =>
    if c = '/' then .ok none
    else
      match matchChunk (chunk.length + 1) chunk nameRest false with
      | .error _ => .error ()
      | .ok (t, true) =>
        if restPat = [] ∧ t ≠ [] then starLoop chunk restPat nameRest
        else .ok (some t)
      | .ok (_, false) => starLoop chunk restPat nameRest

/-- `Match` from Go `path` (outer loop; the pattern strictly shrinks each
iteration, so `pattern.length + 1` fuel always suffices). -/
def goMatchAux : Nat → List Char → List Char → Except Unit Bool
  | 0, _, _ => .error ()
  | fuel + 1, pattern, name =>
    match pattern with
    | [] => .ok (name = [])
    | _ =>
      let (star, chunk, rest) := scanChunk pattern
      if star ∧ chunk = [] then .ok (¬ name.contains '/')
      else
        match matchChunk (chunk.length + 1) chunk name false with
        | .error _ => .error ()
        | .ok (t, ok) =>
          if ok ∧ (t = [] ∨ rest ≠ []) then goMatchAux fuel rest t
          else if star then
            match starLoop chunk rest name with
            | .error _ => .error ()
            | .ok (some t2) => goMatchAux fuel rest t2
            | .ok none => .ok false
          else .ok false

/-- Go `path.Match(pattern, name)`;
`.error ()` plays the role of `ErrBadPattern`. -/
def pathMatch (pattern name : String) : Except Unit Bool :=
  goMatchAux (pattern.length + 1) pattern.data name.data

/-- The glob loop of `Config.expandTargets` (reached only when no target
name equals the pattern exactly). -/
def matchLoop (pattern : String) : List Target → List String →
    Except String (List String)
  | [], names => .ok names
  | t :: rest, names =>
    match pathMatch pattern t.Name with
    | .error _ => .error ("could not match targets with '" ++ pattern ++ "'")
    | .ok true => matchLoop pattern rest (names ++ [t.Name])
    | .ok false => matchLoop pattern rest names

/-- `Config.expandTargets` from bake.go: an exact target-name match wins
outright; otherwise the pattern is glob-matched against every declared
target name, and zero matches is an error. -/
def Config.expandTargets (c : Config) (pattern : String) :
    Except String (List String) :=
  if c.Targets.any (fun t => t.Name == pattern) then .ok [pattern]
  else
    match matchLoop pattern c.Targets [] with
    | .error e => .error e
    | .ok names =>
      if names = [] then
        .error ("could not find any target matching '" ++ pattern ++ "'")
      else .ok names

/-- The per-matched-name body of the `newOverrides` loop: fold one parsed
override into the accumulated table for target `name`.  Returns `none` for
the `continue` taken when an `args` override has no value and the
environment variable is unset. -/
def newOverrideEntry (m : List (String × List (String × Override)))
    (name : String) (parts keys kk : List String)
    (env : List (String × String)) :
    Except String (List (String × List (String × Override))) :=
  let t := (mapGet m name).getD []
  let kk1 := kk.getD 1 ""
  let o := (mapGet t kk1).getD {}
  let key1 := keys.getD 1 ""
  let write := fun (o : Override) => .ok (mapSet m name (mapSet t kk1 o))
  if key1 ∈ ["output", "cache-to", "cache-from", "tags", "platform",
      "secrets", "ssh", "attest", "entitlements", "network"] then
    if parts.length == 2 then
      write { o with ArrValue := o.ArrValue ++ [parts.getD 1 ""] }
    else write o
  else if key1 == "args" then
    if keys.length ≠ 3 then
      .error ("invalid key " ++ parts.getD 0 "" ++ ", args requires name")
    else if parts.length < 2 then
      match mapGet env (keys.getD 2 "") with
      | none => .ok m
      | some v => write { o with Value := v }
    else write { o with Value := parts.getD 1 "" }
  else if key1 == "contexts" then
    if keys.length ≠ 3 then
      .error ("invalid key " ++ parts.getD 0 "" ++ ", contexts requires name")
    else if parts.length == 2 then write { o with Value := parts.getD 1 "" }
    else write o
  else
    if parts.length == 2 then write { o with Value := parts.getD 1 "" }
    else write o

/-- `Config.newOverrides` from bake.go: parse the `--set` strings into a
per-target, per-key override table.  `env` models `os.LookupEnv` (the
process environment, an external input). -/
def Config.newOverrides (c : Config) (vs : List String)
    (env : List (String × String)) :
    Except String (List (String × List (String × Override))) :=
  vs.foldlM
    (fun m v => do
      let parts := goSplitN v '=' 2
      let parts0 := parts.getD 0 ""
      let keys := goSplitN parts0 '.' 3
      if keys.length < 2 then
        .error ("invalid override key " ++ parts0 ++ ", expected target.name")
      else if parts.length ≠ 2 ∧ keys.getD 1 "" ≠ "args" then
        .error ("invalid override " ++ v ++ ", expected target.name=value")
      else do
        let names ← c.expandTargets (keys.getD 0 "")
        let kk := goSplitN parts0 '.' 2
        names.foldlM (fun m name => newOverrideEntry m name parts keys kk env) m)
    []

/-- `visit` from bake.go: memo entry of the group expander. -/
structure Visit where
  target : List String := []
  group : List String := []
deriving Repr, DecidableEq

/-- The loop over a group's member names inside `Config.group`, abstracted
over the recursive call `rec` (which is `Config.group` at the next fuel
level).  Members expanding to no targets are appended verbatim as target
leaves. -/
def groupListGo
    (rec : String → List (String × Visit) →
      Option ((List String × List String) × List (String × Visit))) :
    List String → List String → List String → List (String × Visit) →
    Option (List String × List String × List (String × Visit))
  | [], targets, groups, visited => some (targets, groups, visited)
  | t :: ts, targets, groups, visited =>
    match rec t visited with
    | none => none
    | some ((ttarget, tgroup), visited) =>
      let targets := if ttarget ≠ [] then targets ++ ttarget else targets ++ [t]
      let groups := if tgroup ≠ [] then groups ++ tgroup else groups
      groupListGo rec ts targets groups visited

/-- `Config.group` from bake.go with an explicit fuel argument (`none`
means the fuel ran out; `group_saturates` below proves that
`c.Groups.length + 1` fuel always suffices).  A name registered in
`visited` short-circuits (in-progress entries are empty, which is how
group cycles terminate); a name with no group declaration is a target
leaf. -/
def Config.group (c : Config) : Nat → String → List (String × Visit) →
    Option ((List String × List String) × List (String × Visit))
  | 0, _, _ => none
  | fuel + 1, name, visited =>
    match mapGet visited name with
    | some v => some ((v.target, v.group), visited)
    | none =>
      match c.Groups.find? (fun g => g.Name == name) with
      | none => some (([name], []), visited)
      | some g =>
        match
          groupListGo (fun t vis => c.group fuel t vis) g.Targets [] [name]
            (mapSet visited name {}) with
        | none => none
        | some (targets, groups, visited) =>
          some ((targets, groups), mapSet visited name ⟨targets, groups⟩)

/-- `Config.ResolveGroup` from bake.go (with the fuel that
`group_saturates` proves sufficient). -/
def Config.ResolveGroup (c : Config) (name : String) :
    Option (List String × List String) :=
  match c.group (c.Groups.length + 1) name [] with
  | none => none
  | some ((targets, groups), _) => some (dedupSlice targets, dedupSlice groups)

/-- The loop over a target's `inherits` list inside `Config.target`,
abstracted over the recursive call `rec`: resolve each parent and merge it
into the accumulator `tt` (a nil parent — an in-progress cycle entry — is
skipped). -/
def targetListGo
    (rec : String → List (String × Option Target) → EntitlementConf →
      Option (Except String (Option Target × List (String × Option Target) ×
        EntitlementConf))) :
    List String → Target → List (String × Option Target) → EntitlementConf →
    Option (Except String (Target × List (String × Option Target) ×
      EntitlementConf))
  | [], tt, visited, ent => some (.ok (tt, visited, ent))
  | name :: rest, tt, visited, ent =>
    match rec name visited ent with
    | none => none
    | some (.error e) => some (.error e)
    | some (.ok (t?, visited, ent)) =>
      let tt := match t? with
        | some t => tt.Merge t
        | none => tt
      targetListGo rec rest tt visited ent

/-- `Config.target` from bake.go with an explicit fuel argument: resolve
`name` through its `inherits` chain, memoized in `visited` (a `none`
value in `visited` is Go's in-progress `nil` entry — an inheritance cycle
is silently treated as an absent parent).  The outer `Option` is fuel
exhaustion, the `Except` a Go error, the innermost `Option` the possibly
nil `*Target`. -/
def Config.target (c : Config) : Nat → String → List (String × Option Target) →
    List (String × List (String × Override)) → EntitlementConf →
    Option (Except String (Option Target × List (String × Option Target) ×
      EntitlementConf))
  | 0, _, _, _, _ => none
  | fuel + 1, name, visited, overrides, ent =>
    match mapGet visited name with
    | some t => some (.ok (t, visited, ent))
    | none =>
      let visited := mapSet visited name none
      match c.Targets.find? (fun t => t.Name == name) with
      | none => some (.error ("failed to find target " ++ name))
      | some t =>
        match
          targetListGo (fun n vis e => c.target fuel n vis overrides e)
            t.Inherits {} visited ent with
        | none => none
        | some (.error e) => some (.error e)
        | some (.ok (tt, visited, ent)) =>
          let m := defaultTarget
          let m := m.Merge tt
          let m := m.Merge t
          let tt := m
          match tt.AddOverrides ((mapGet overrides name).getD []) ent with
          | .error e => some (.error e)
          | .ok (tt, ent) =>
            let tt := tt.normalize
            some (.ok (some tt, mapSet visited name (some tt), ent))

/-- `Config.ResolveTarget` from bake.go: resolve, clear `inherits`, and
default `context`/`dockerfile`.  The fuel `c.Targets.length + 1` bounds the
inheritance recursion depth (every recursion step first registers a
previously unvisited declared target name).  The unreachable nil-target
result (it would be a nil dereference in Go, and cannot occur with a fresh
`visited`) is mapped to `none`. -/
def Config.ResolveTarget (c : Config) (name : String)
    (overrides : List (String × List (String × Override)))
    (ent : EntitlementConf) :
    Option (Except String (Target × EntitlementConf)) :=
  match c.target (c.Targets.length + 1) name [] overrides ent with
  | none => none
  | some (.error e) => some (.error e)
  | some (.ok (none, _, _)) => none
  | some (.ok (some t, _, ent)) =>
    let t := { t with Inherits := [] }
    let t := if t.Context.isNone then { t with Context := some "." } else t
    let t := if t.Dockerfile.isNone then { t with Dockerfile := some "Dockerfile" } else t
    some (.ok (t, ent))

/-- Render a string list the way Go's `%v` verb does, for the platform
mismatch message of `loadLinks`. -/
def goSliceV (s : List String) : String :=
  "[" ++ String.intercalate " " s ++ "]"

/-- The loop over `t.Contexts` values inside `Config.loadLinks`,
abstracted over the recursive call `rec` (which is `Config.loadLinks` at
the next fuel level, with the walk path already extended by the current
name). -/
def linkListGo (c : Config)
    (rec : String → Target → List (String × Target) → EntitlementConf →
      Option (Except String (List (String × Target) × EntitlementConf)))
    (overrides : List (String × List (String × Override)))
    (visited : List String) :
    String → Target → List (String × String) → List (String × Target) →
    EntitlementConf →
    Option (Except String (List (String × Target) × EntitlementConf))
  | name, t, [], m, ent => some (.ok (mapSet m name t, ent))
  | name, t, (_, v) :: ctxRest, m, ent =>
    if hasPfx v "target:" then
      let target := trimPfx v "target:"
      if target == name then
        some (.error ("target " ++ target ++ " cannot link to itself"))
      else if visited.contains target then
        some (.error ("infinite loop from " ++ name ++ " to " ++ target))
      else
        let resolved : Option (Except String (Target × List (String × Target) ×
            EntitlementConf)) :=
          match mapGet m target with
          | some t2 => some (.ok (t2, m, ent))
          | none =>
            match c.ResolveTarget target overrides ent with
            | none => none
            | some (.error e) => some (.error e)
            | some (.ok (t2, ent)) =>
              let t2 := { t2 with Outputs := ["type=cacheonly"], linked := true }
              some (.ok (t2, mapSet m target t2, ent))
        match resolved with
        | none => none
        | some (.error e) => some (.error e)
        | some (.ok (t2, m, ent)) =>
          match rec target t2 m ent with
          | none => none
          | some (.error e) => some (.error e)
          | some (.ok (m, ent)) =>
            let t2 := (mapGet m target).getD t2
            let t :=
              { t with
                Entitlements :=
                  t2.Entitlements.foldl
                    (fun es e => if es.contains e then es else es ++ [e])
                    t.Entitlements }
            if t.Platforms.length > 1 ∧ t2.Platforms.length > 1 ∧
                ¬ sliceEqual t.Platforms t2.Platforms then
              some (.error ("target " ++ target ++ " can't be used by " ++
                name ++ " because it is defined for different platforms " ++
                goSliceV t2.Platforms ++ " and " ++ goSliceV t.Platforms))
            else linkListGo c rec overrides visited name t ctxRest m ent
    else linkListGo c rec overrides visited name t ctxRest m ent

/-- `Config.loadLinks` from bake.go with fuel: follow every
`target:<name>` build-context reference of `t`, rejecting self links and
cycles, resolving not-yet-resolved link dependencies (forcing their
outputs to the cache-only sentinel and marking them `linked`), inheriting
entitlements from the dependency, and enforcing multi-platform set
equality.  Go mutates `t` (which is `m[name]`) through a pointer; here the
updated target is written back to `m`. -/
def Config.loadLinks (c : Config) : Nat → String → Target →
    List (String × Target) → List (String × List (String × Override)) →
    List String → EntitlementConf →
    Option (Except String (List (String × Target) × EntitlementConf))
  | 0, _, _, _, _, _, _ => none
  | fuel + 1, name, t, m, overrides, visited, ent =>
    let visited := visited ++ [name]
    linkListGo c
      (fun name2 t2 m2 ent2 => c.loadLinks fuel name2 t2 m2 overrides visited ent2)
      overrides visited name t t.Contexts m ent

/-- `sanitizeTargetName` from bake.go: compose-style dots become
underscores (`strings.ReplaceAll(target, ".", "_")`; for single-character
patterns the substring replacement is a character map). -/
def sanitizeTargetName (target : String) : String :=
  String.mk (target.data.map fun c => if c = '.' then '_' else c)

/-- The inner loop of `ReadTargets` over the target names produced by
`ResolveGroup`: resolve each and store it in `m` (the nil check on the
resolved target is vacuous here: a successful `ResolveTarget` is never
nil). -/
def readTargetNames (c : Config)
    (o : List (String × List (String × Override))) :
    List String → List (String × Target) → EntitlementConf →
    Option (Except String (List (String × Target) × EntitlementConf))
  | [], m, ent => some (.ok (m, ent))
  | tname :: rest, m, ent =>
    match c.ResolveTarget tname o ent with
    | none => none
    | some (.error e) => some (.error e)
    | some (.ok (t, ent)) => readTargetNames c o rest (mapSet m tname t) ent

/-- The inner loop of `ReadTargets` over the group names produced by
`ResolveGroup`: look each up in the document and store it in `n`. -/
def readGroupNames (c : Config) (gs : List String)
    (n : List (String × Group)) : List (String × Group) :=
  gs.foldl
    (fun n gname =>
      match c.Groups.find? (fun g => g.Name == gname) with
      | some g => mapSet n gname g
      | none => n)
    n

/-- The main loop of `ReadTargets` over the requested names: expand each
through `ResolveGroup`, then resolve the resulting target names and
collect the reachable groups. -/
def readRequested (c : Config)
    (o : List (String × List (String × Override))) :
    List String → List (String × Target) → List (String × Group) →
    EntitlementConf →
    Option (Except String (List (String × Target) × List (String × Group) ×
      EntitlementConf))
  | [], m, n, ent => some (.ok (m, n, ent))
  | target :: rest, m, n, ent =>
    match c.ResolveGroup target with
    | none => none
    | some (ts, gs) =>
      match readTargetNames c o ts m ent with
      | none => none
      | some (.error e) => some (.error e)
      | some (.ok (m, ent)) =>
        readRequested c o rest m (readGroupNames c gs n) ent

/-- The synthesized `default` group of `ReadTargets`: every requested name
other than `"default"` is appended to it (creating it on first use), and
its member list is deduplicated at the end. -/
def addDefaultGroup (targets : List String) (n : List (String × Group)) :
    List (String × Group) :=
  let n :=
    targets.foldl
      (fun n target =>
        if target == "default" then n
        else
          let g := (mapGet n "default").getD { Name := "default" }
          mapSet n "default" { g with Targets := g.Targets ++ [target] })
      n
  match mapGet n "default" with
  | some g => mapSet n "default" { g with Targets := dedupSlice g.Targets }
  | none => n

/-- The final loop of `ReadTargets`: run `loadLinks` for every resolved
target.  Go ranges over the map `m` while `loadLinks` may add linked
entries to it (the iteration order, and whether added entries are visited,
is unspecified in Go); here the snapshot of keys present at loop entry is
iterated, each reading the then-current value — mirroring that Go's loop
variable is a pointer into `m`. -/
def readLinks (c : Config) (o : List (String × List (String × Override))) :
    List String → List (String × Target) → EntitlementConf →
    Option (Except String (List (String × Target) × EntitlementConf))
  | [], m, ent => some (.ok (m, ent))
  | name :: rest, m, ent =>
    match mapGet m name with
    | none => readLinks c o rest m ent
    | some t =>
      match c.loadLinks (c.Targets.length + 2) name t m o [] ent with
      | none => none
      | some (.error e) => some (.error e)
      | some (.ok (m, ent)) => readLinks c o rest m ent

/-- `ReadTargets` from bake.go, from the point where the files have been
parsed into a `Config` (file reading and parsing are external
collaborators): sanitize the requested names, build the override table,
resolve every requested target/group, synthesize the `default` group, and
close the link graph.  An error anywhere aborts with no result maps. -/
def ReadTargets (c : Config) (targets overrides : List String)
    (env : List (String × String)) (ent : EntitlementConf) :
    Option (Except String (List (String × Target) × List (String × Group) ×
      EntitlementConf)) :=
  let targets := targets.map sanitizeTargetName
  match c.newOverrides overrides env with
  | .error e => some (.error e)
  | .ok o =>
    match readRequested c o targets [] [] ent with
    | none => none
    | some (.error e) => some (.error e)
    | some (.ok (m, n, ent)) =>
      let n := addDefaultGroup targets n
      match readLinks c o (m.map Prod.fst) m ent with
      | none => none
      | some (.error e) => some (.error e)
      | some (.ok (m, ent)) => some (.ok (m, n, ent))

/-- `Target.GetEvalContexts` from bake.go, at the level of the already
extracted `matrix` attribute (HCL block decoding is an external
collaborator): `none` is a target block without a `matrix` attribute.  An
evaluation context is the ambient one (`none`, Go's `ectx`) or a child
carrying the matrix variable bindings built so far; for each matrix
variable, the context set is replaced by its cartesian product with the
variable's candidate values, copying the variables of every non-ambient
context. -/
def GetEvalContexts {α : Type} (matrix : Option (List (String × List α))) :
    List (Option (List (String × α))) :=
  match matrix with
  | none => [none]
  | some mx =>
    mx.foldl
      (fun ectxs kv =>
        kv.2.foldl
          (fun ectxs2 v =>
            ectxs2 ++
              ectxs.map (fun e =>
                let vars :=
                  match e with
                  | none => ([] : List (String × α))
                  | some vs => vs
                some (mapSet vars kv.1 v)))
          [])
      [none]

/-! ### Store-level model of the in-place slice operations

`Target.Merge` copies slice *headers* (`t.Tags = t2.Tags` and the other
no-merge fields), so a resolved target's slice can share its backing array
with the parsed document's declaration, while `removeDupes` compacts and
`sliceEqual` sorts their argument slices in place.  The pure translations
above only capture the returned values; the definitions below additionally
model the Go heap, to settle claim C5. -/

/-- A Go slice header: backing-array id and length.  (Offsets are not
needed here: every header in the modelled scenario starts at index 0, as
does `s[:i]` returned by `removeDupes`.) -/
structure GoSlice where
  arr : Nat
  len : Nat
deriving Repr, DecidableEq

/-- The heap of slice backing arrays, indexed by `GoSlice.arr`. -/
abbrev Store := List (List String)

/-- The elements a slice header denotes in a store. -/
def readSlice (st : Store) (s : GoSlice) : List String :=
  (st.getD s.arr []).take s.len

/-- The write `arr[i] = v`. -/
def writeIdx (st : Store) (a i : Nat) (v : String) : Store :=
  st.set a ((st.getD a []).set i v)

/-- The loop of `removeDupes` at the store level: Go iterates the original
elements (reads are unaffected by the writes, which stay at or before the
read position) writing each kept value at the next write index `i` of the
same backing array. -/
def removeDupesLoop (a : Nat) : List String → Nat → List String → Store →
    Store × Nat
  | [], i, _, st => (st, i)
  | v :: rest, i, seen, st =>
    if seen.contains v then removeDupesLoop a rest i seen st
    else if v == "" then removeDupesLoop a rest i seen st
    else removeDupesLoop a rest (i + 1) (v :: seen) (writeIdx st a i v)

/-- `removeDupes` from bake.go at the store level: compact in place, return
the header `s[:i]` over the *same* backing array. -/
def removeDupesS (st : Store) (s : GoSlice) : Store × GoSlice :=
  let (st2, i) := removeDupesLoop s.arr (readSlice st s) 0 [] st
  (st2, { arr := s.arr, len := i })

/-- Go `sort.Strings` at the store level: sort the slice's elements in
place. -/
def sortStringsS (st : Store) (s : GoSlice) : Store :=
  let sorted := sortStrings (readSlice st s)
  (List.range s.len).foldl (fun st i => writeIdx st s.arr i (sorted.getD i "")) st

/-- `sliceEqual` from bake.go at the store level: it sorts both argument
slices in place before comparing them. -/
def sliceEqualS (st : Store) (s1 s2 : GoSlice) : Store × Bool :=
  if s1.len ≠ s2.len then (st, false)
  else
    let st := sortStringsS st s1
    let st := sortStringsS st s2
    (st, readSlice st s1 == readSlice st s2)

/-- Group entries of `c` whose name has no `visited` entry yet: the
termination measure of the group expander (each recursive level registers
one previously-unvisited group name before descending). -/
def unvisitedCount (c : Config) (vis : List (String × Visit)) : Nat :=
  (c.Groups.filter fun g => (mapGet vis g.Name).isNone).length

/-! ## Claims -/

/-- C2: override accumulation vs last-write-wins.  For the target `web`,
parsing `["web.tags=foo:latest", "web.tags=foo:dev"]` accumulates both
values under the `tags` key and the apply step fully replaces the
declared tags, so the resolved tags are `["foo:latest", "foo:dev"]`;
parsing `["web.context=./app", "web.context=./other"]` keeps only the
last value for the scalar `context` key, so the resolved context is
`"./other"`. -/
theorem claim_C2 :
    ({ Targets := [{ Name := "web", Tags := ["orig"], Context := some "./decl" }] } : Config).newOverrides
        ["web.tags=foo:latest", "web.tags=foo:dev"] [] =
      .ok [("web", [("tags",
        { Value := "", ArrValue := ["foo:latest", "foo:dev"] })])] ∧
    (({ Targets := [{ Name := "web", Tags := ["orig"], Context := some "./decl" }] } : Config).ResolveTarget "web"
        [("web", [("tags",
          { Value := "", ArrValue := ["foo:latest", "foo:dev"] })])]
        {}).map (Except.map fun p => p.1.Tags) =
      some (.ok ["foo:latest", "foo:dev"]) ∧
    ({ Targets := [{ Name := "web", Tags := ["orig"], Context := some "./decl" }] } : Config).newOverrides
        ["web.context=./app", "web.context=./other"] [] =
      .ok [("web", [("context", { Value := "./other", ArrValue := [] })])] ∧
    (({ Targets := [{ Name := "web", Tags := ["orig"], Context := some "./decl" }] } : Config).ResolveTarget "web"
        [("web", [("context", { Value := "./other", ArrValue := [] })])]
        {}).map (Except.map fun p => p.1.Context) =
      some (.ok (some "./other")) := by
  exact ⟨by decide, by decide, by decide, by decide⟩

/-- C3: link-cycle rejection.  A target whose named build context is
`target:<own-name>` makes link resolution (and hence `ReadTargets`) fail
with the error `"target a cannot link to itself"` (containing
"cannot link to itself" and naming the target), and two targets with
mutual `target:` references fail with `"infinite loop from b to a"`
(containing "infinite loop" and both names); in both cases `ReadTargets`
returns the error and no result maps. -/
theorem claim_C3 :
    ReadTargets { Targets := [{ Name := "a", Contexts := [("x", "target:a")] }] } ["a"] [] [] {} =
      some (.error "target a cannot link to itself") ∧
    ReadTargets { Targets :=
        [{ Name := "a", Contexts := [("x", "target:b")] },
         { Name := "b", Contexts := [("y", "target:a")] }] } ["a"] [] [] {} =
      some (.error "infinite loop from b to a") := by
  exact ⟨by decide, by decide⟩

/-- C5 (code bug): resolution does mutate the Document Model.
`Target.Merge` copies the slice header for the no-merge list fields
(`m.Tags = t.Tags` aliases the declaration's backing array) and
`Target.normalize` then runs `removeDupes`, which compacts that slice in
place.  At the store level, for a declared `tags = ["", "foo"]` backed by
array 0: the compaction writes `"foo"` to index 0, so the array becomes
`["foo", "foo"]` and the declaration's unchanged header `(arr 0, len 2)`
now reads `["foo", "foo"]` instead of `["", "foo"]` — the parsed document
has been mutated.  (`sliceEqual` likewise sorts its argument slices in
place: `["b", "a"]` becomes `["a", "b"]`.)  The pure value the resolver
returns for such a target is `["foo"]`, matching `removeDupes`. -/
theorem claim_C5_bug :
    readSlice [["", "foo"]] ⟨0, 2⟩ = ["", "foo"] ∧
    (removeDupesS [["", "foo"]] ⟨0, 2⟩).1 = [["foo", "foo"]] ∧
    (removeDupesS [["", "foo"]] ⟨0, 2⟩).2 = ⟨0, 1⟩ ∧
    readSlice (removeDupesS [["", "foo"]] ⟨0, 2⟩).1 ⟨0, 2⟩ = ["foo", "foo"] ∧
    (sliceEqualS [["b", "a"], ["b", "a"]] ⟨0, 2⟩ ⟨1, 2⟩).1 =
      [["a", "b"], ["a", "b"]] ∧
    (({ Targets := [{ Name := "web", Tags := ["", "foo"] }] } : Config).ResolveTarget "web" [] {}).map
      (Except.map fun p => p.1.Tags) = some (.ok ["foo"]) := by
  exact ⟨by decide, by decide, by decide, by decide, by decide, by decide⟩

/-- C10: a group `G` whose member list contains `G` itself hits the
in-progress empty memo entry, so the member name is appended as a target
leaf and `ResolveGroup` returns `G` both as a target name and as a group
name; `ReadTargets` for such a request then fails with
`"failed to find target G"` — unless a target named `G` also exists, in
which case the request succeeds. -/
theorem claim_C10 :
    ({ Groups := [{ Name := "G", Targets := ["G"] }] } : Config).ResolveGroup
        "G" = some (["G"], ["G"]) ∧
    ReadTargets { Groups := [{ Name := "G", Targets := ["G"] }] }
        ["G"] [] [] {} = some (.error "failed to find target G") ∧
    (ReadTargets { Groups := [{ Name := "G", Targets := ["G"] }], Targets := [{ Name := "G" }] } ["G"] [] [] {}).map
      (Except.map fun _ => ()) = some (.ok ()) := by
  exact ⟨by decide, by decide, by decide⟩

/-- The `removeDupes` loop keeps exactly the nonempty values not yet seen,
without duplicates. -/
theorem removeDupesAux_spec : ∀ (l seen : List String),
    (removeDupesAux l seen).Nodup ∧
      ∀ x, x ∈ removeDupesAux l seen ↔ x ∈ l ∧ x ∉ seen ∧ x ≠ "" := by
  intro l
  induction l with
  | nil => intro seen; simp [removeDupesAux]
  | cons v rest ih =>
    intro seen
    by_cases hv : v ∈ seen
    · rw [removeDupesAux, if_pos (by simpa using hv)]
      refine ⟨(ih seen).1, fun x => ?_⟩
      rw [(ih seen).2]
      constructor
      · rintro ⟨h1, h2, h3⟩; exact ⟨.tail _ h1, h2, h3⟩
      · rintro ⟨h1, h2, h3⟩
        rcases List.mem_cons.mp h1 with rfl | h1
        · exact absurd hv h2
        · exact ⟨h1, h2, h3⟩
    · rw [removeDupesAux, if_neg (by simpa using hv)]
      by_cases he : v = ""
      · rw [if_pos (by simpa using he)]
        refine ⟨(ih seen).1, fun x => ?_⟩
        rw [(ih seen).2]
        constructor
        · rintro ⟨h1, h2, h3⟩; exact ⟨.tail _ h1, h2, h3⟩
        · rintro ⟨h1, h2, h3⟩
          rcases List.mem_cons.mp h1 with rfl | h1
          · exact absurd he h3
          · exact ⟨h1, h2, h3⟩
      · rw [if_neg (by simpa using he)]
        have hm := (ih (v :: seen)).2
        constructor
        · refine List.nodup_cons.mpr ⟨fun hx => ?_, (ih (v :: seen)).1⟩
          exact ((hm v).mp hx).2.1 (List.mem_cons_self ..)
        · intro x
          rw [List.mem_cons, hm]
          constructor
          · rintro (rfl | ⟨h1, h2, h3⟩)
            · exact ⟨List.mem_cons_self .., hv, he⟩
            · exact ⟨.tail _ h1, fun hs => h2 (.tail _ hs), h3⟩
          · rintro ⟨h1, h2, h3⟩
            rcases List.mem_cons.mp h1 with rfl | h1
            · exact Or.inl rfl
            · by_cases hxv : x = v
              · exact Or.inl hxv
              · exact Or.inr ⟨h1, fun hs => (List.mem_cons.mp hs).elim hxv h2, h3⟩

/-- `removeDupes` output has no duplicates. -/
theorem removeDupes_nodup (s : List String) : (removeDupes s).Nodup :=
  (removeDupesAux_spec s []).1

/-- `removeDupes` keeps exactly the nonempty input values. -/
theorem mem_removeDupes (s : List String) (x : String) :
    x ∈ removeDupes s ↔ x ∈ s ∧ x ≠ "" := by
  rw [removeDupes, (removeDupesAux_spec s []).2]
  simp

/-- A nonempty value occurring in the input occurs exactly once after
`removeDupes`. -/
theorem removeDupes_count_one (s : List String) (x : String) (hx : x ∈ s)
    (hne : x ≠ "") : (removeDupes s).count x = 1 :=
  List.count_eq_one_of_mem (removeDupes_nodup s)
    ((mem_removeDupes s x).mpr ⟨hx, hne⟩)
/-- A successful `Config.target` resolution from a fresh `visited` map
always returns a normalized target (the last step of the resolver is
`normalize`). -/
theorem target_nil_ok (c : Config) (fuel : Nat) (name : String)
    (o : List (String × List (String × Override))) (e : EntitlementConf)
    (u : Target) (vis : List (String × Option Target)) (e2 : EntitlementConf)
    (h : c.target fuel name [] o e = some (.ok (some u, vis, e2))) :
    ∃ w : Target, u = w.normalize := by
  cases fuel with
  | zero => simp [Config.target] at h
  | succ fuel =>
    rw [Config.target] at h
    simp only [mapGet] at h
    split at h
    · simp at h
    · split at h
      · simp at h
      · simp at h
      · split at h
        · simp at h
        · simp only [Option.some.injEq, Except.ok.injEq, Prod.mk.injEq] at h
          exact ⟨_, h.1.symm⟩
/-- A successful `Config.ResolveTarget` is the underlying `Config.target`
result with `inherits` cleared and `context`/`dockerfile` defaulted; all
other fields pass through unchanged. -/
theorem ResolveTarget_ok_shape (c : Config) (name : String)
    (o : List (String × List (String × Override))) (e : EntitlementConf)
    (t : Target) (e2 : EntitlementConf)
    (h : c.ResolveTarget name o e = some (.ok (t, e2))) :
    ∃ u vis e3,
      c.target (c.Targets.length + 1) name [] o e = some (.ok (some u, vis, e3)) ∧
      e2 = e3 ∧ t.Inherits = [] ∧
      t.Context = (if u.Context.isNone then some "." else u.Context) ∧
      t.Dockerfile = (if u.Dockerfile.isNone then some "Dockerfile" else u.Dockerfile) ∧
      t.Entitlements = u.Entitlements ∧
      t.NetworkMode = u.NetworkMode ∧
      t.DockerfileInline = u.DockerfileInline ∧
      t.TargetStage = u.TargetStage ∧
      t.Call = u.Call ∧
      t.Pull = u.Pull ∧
      t.NoCache = u.NoCache ∧
      t.ShmSize = u.ShmSize ∧
      t.Tags = u.Tags := by
  rw [Config.ResolveTarget] at h
  split at h
  · simp at h
  · simp at h
  · simp at h
  · rename_i u vis e3 heq
    refine ⟨u, vis, e3, heq, ?_⟩
    simp only [Option.some.injEq, Except.ok.injEq, Prod.mk.injEq] at h
    obtain ⟨ht, he⟩ := h
    subst ht he
    by_cases hc : u.Context.isNone <;> by_cases hd : u.Dockerfile.isNone <;>
      simp [hc, hd]
/-- C4: every resolved target whose network-mode is `"host"` has
`"network.host"` in its entitlements exactly once, however many times it
was declared across inheritance levels: normalization appends the implied
entitlement and then deduplicates the entitlement list. -/
theorem claim_C4 (c : Config) (name : String)
    (o : List (String × List (String × Override))) (e : EntitlementConf)
    (t : Target) (e2 : EntitlementConf)
    (h : c.ResolveTarget name o e = some (.ok (t, e2)))
    (hh : t.NetworkMode = some "host") :
    t.Entitlements.count "network.host" = 1 := by
  obtain ⟨u, vis, e3, hu, -, -, -, -, hent, hnm, -⟩ :=
    ResolveTarget_ok_shape c name o e t e2 h
  obtain ⟨w, rfl⟩ := target_nil_ok c _ name o e u vis e3 hu
  have hwn : w.NetworkMode = some "host" := by
    have hx : t.NetworkMode = w.NetworkMode := by
      rw [hnm]; simp [Target.normalize]
    rwa [hx] at hh
  have hE : t.Entitlements = removeDupes (w.Entitlements ++ ["network.host"]) := by
    rw [hent]; simp [Target.normalize, hwn]
  rw [hE]
  exact removeDupes_count_one _ _ (by simp) (by decide)

/-- Witness for C4: the target `web` declaring `network-mode = "host"`
and the entitlement twice resolves with the entitlement exactly once. -/
theorem claim_C4_witness :
    ({ Context := some ".", Dockerfile := some "Dockerfile",
       NetworkMode := some "host",
       Entitlements := ["network.host"] } : Target).Entitlements.count
      "network.host" = 1 :=
  claim_C4 { Targets := [{ Name := "web", NetworkMode := some "host", Entitlements := ["network.host", "network.host"] }] }
    "web" [] {} _ {} (by decide) (by decide)

/-- C6: `ResolveTarget` postcondition — every successfully resolved target
has a non-nil context (`"."` when nothing was declared, inherited or
overridden), a non-nil dockerfile (`"Dockerfile"` when unset), and a nil
(cleared) `inherits` list. -/
theorem claim_C6 (c : Config) (name : String)
    (o : List (String × List (String × Override))) (e : EntitlementConf)
    (t : Target) (e2 : EntitlementConf)
    (h : c.ResolveTarget name o e = some (.ok (t, e2))) :
    t.Context.isSome ∧ t.Dockerfile.isSome ∧ t.Inherits = [] ∧
    ∀ u vis e3,
      c.target (c.Targets.length + 1) name [] o e = some (.ok (some u, vis, e3)) →
        (u.Context = none → t.Context = some ".") ∧
        (u.Context ≠ none → t.Context = u.Context) ∧
        (u.Dockerfile = none → t.Dockerfile = some "Dockerfile") ∧
        (u.Dockerfile ≠ none → t.Dockerfile = u.Dockerfile) := by
  obtain ⟨u, vis, e3, hu, -, hinh, hctx, hdf, -⟩ :=
    ResolveTarget_ok_shape c name o e t e2 h
  refine ⟨?_, ?_, hinh, ?_⟩
  · rw [hctx]; cases u.Context <;> simp
  · rw [hdf]; cases u.Dockerfile <;> simp
  · intro u2 vis2 e4 h2
    rw [hu] at h2
    simp only [Option.some.injEq, Except.ok.injEq, Prod.mk.injEq] at h2
    obtain ⟨hu2, -, -⟩ := h2
    subst hu2
    refine ⟨fun hn => ?_, fun hn => ?_, fun hn => ?_, fun hn => ?_⟩
    · rw [hctx]; simp [hn]
    · rw [hctx]; simp [Option.isNone_iff_eq_none, hn]
    · rw [hdf]; simp [hn]
    · rw [hdf]; simp [Option.isNone_iff_eq_none, hn]

/-- Witness for C6: a bare declared target resolves with context `"."`,
dockerfile `"Dockerfile"`, and no inherits. -/
theorem claim_C6_witness :
    ({ Context := some ".", Dockerfile := some "Dockerfile" } : Target).Context.isSome ∧
    ({ Context := some ".", Dockerfile := some "Dockerfile" } : Target).Dockerfile.isSome ∧
    ({ Context := some ".", Dockerfile := some "Dockerfile" } : Target).Inherits = [] := by
  have h := claim_C6 { Targets := [{ Name := "t" }] } "t" [] {}
    { Context := some ".", Dockerfile := some "Dockerfile" } {} (by decide)
  exact ⟨h.1, h.2.1, h.2.2.1⟩

/-- One matrix variable multiplies the context count by its number of
candidate values (the inner loop of `GetEvalContexts`). -/
theorem getEvalContexts_inner_len {α : Type} (k : String)
    (ectxs : List (Option (List (String × α)))) :
    ∀ (vals : List α) (start : List (Option (List (String × α)))),
      (vals.foldl
        (fun ectxs2 v =>
          ectxs2 ++
            ectxs.map (fun e =>
              let vars :=
                match e with
                | none => ([] : List (String × α))
                | some vs => vs
              some (mapSet vars k v)))
        start).length = start.length + vals.length * ectxs.length := by
  intro vals
  induction vals with
  | nil => intro start; simp
  | cons v vs ih =>
    intro start
    rw [List.foldl_cons, ih]
    simp [List.length_append, List.length_map]
    ring

/-- The matrix loop of `GetEvalContexts` multiplies the starting context
count by the product of the candidate-list sizes. -/
theorem getEvalContexts_outer_len {α : Type} (mx : List (String × List α)) :
    ∀ start : List (Option (List (String × α))),
      (mx.foldl
        (fun ectxs kv =>
          kv.2.foldl
            (fun ectxs2 v =>
              ectxs2 ++
                ectxs.map (fun e =>
                  let vars :=
                    match e with
                    | none => ([] : List (String × α))
                    | some vs => vs
                  some (mapSet vars kv.1 v)))
            [])
        start).length = start.length * (mx.map fun kv => kv.2.length).prod := by
  induction mx with
  | nil => intro start; simp
  | cons kv ms ih =>
    intro start
    rw [List.foldl_cons, ih, getEvalContexts_inner_len]
    simp
    ring

/-- C7: matrix expansion is a cartesian product.  For every matrix of `k`
variables with candidate lists of sizes `n1..nk`, expansion produces
exactly `n1 * ... * nk` evaluation contexts; a target without a matrix
attribute yields exactly one (the ambient) context; and the concrete
matrix `os = [linux, darwin], arch = [amd64, arm64]` yields exactly the 4
contexts, one per `(os, arch)` pair, each carrying both previously-bound
variables. -/
theorem claim_C7 :
    (∀ (α : Type) (mx : List (String × List α)),
      (GetEvalContexts (some mx)).length = (mx.map fun kv => kv.2.length).prod) ∧
    (∀ (α : Type), GetEvalContexts (none : Option (List (String × List α))) = [none]) ∧
    GetEvalContexts (some [("os", ["linux", "darwin"]), ("arch", ["amd64", "arm64"])]) =
      [some [("os", "linux"), ("arch", "amd64")], some [("os", "darwin"), ("arch", "amd64")],
       some [("os", "linux"), ("arch", "arm64")], some [("os", "darwin"), ("arch", "arm64")]] := by
  refine ⟨?_, ?_, by decide⟩
  · intro α mx
    have h := getEvalContexts_outer_len mx [none]
    simpa [GetEvalContexts] using h
  · intro α
    rfl

/-- The glob loop of `expandTargets` collects exactly the declared names
the pattern matches, in declaration order, when no pattern error occurs. -/
theorem matchLoop_ok (pattern : String) : ∀ (ts : List Target) (acc : List String),
    (∀ t ∈ ts, ∃ b, pathMatch pattern t.Name = .ok b) →
    matchLoop pattern ts acc =
      .ok (acc ++ (ts.filter
        (fun t => decide (pathMatch pattern t.Name = .ok true))).map Target.Name) := by
  intro ts
  induction ts with
  | nil => intro acc _; simp [matchLoop]
  | cons t ts ih =>
    intro acc hall
    obtain ⟨b, hb⟩ := hall t (List.mem_cons_self ..)
    cases b with
    | true =>
      simp only [matchLoop, hb]
      rw [ih _ (fun t ht => hall t (.tail _ ht))]
      simp [List.filter_cons, hb]
    | false =>
      simp only [matchLoop, hb]
      rw [ih _ (fun t ht => hall t (.tail _ ht))]
      simp [List.filter_cons, hb]

/-- C8: override pattern matching.  A pattern exactly equal to a declared
target name expands to just that name, skipping glob matching entirely
(even when the pattern is itself a glob that would match more names, as
the `w*b` example shows); otherwise the pattern is glob-matched against
all declared names and expands to every match; zero matches is an error
naming the pattern. -/
theorem claim_C8 :
    (∀ (c : Config) (pattern : String), (∃ t ∈ c.Targets, t.Name = pattern) →
      c.expandTargets pattern = .ok [pattern]) ∧
    (∀ (c : Config) (pattern : String),
      (∀ t ∈ c.Targets, t.Name ≠ pattern) →
      (∀ t ∈ c.Targets, ∃ b, pathMatch pattern t.Name = .ok b) →
      c.expandTargets pattern =
        (if ((c.Targets.filter
            (fun t => decide (pathMatch pattern t.Name = .ok true))).map Target.Name) = []
         then .error ("could not find any target matching '" ++ pattern ++ "'")
         else .ok ((c.Targets.filter
            (fun t => decide (pathMatch pattern t.Name = .ok true))).map Target.Name))) ∧
    ({ Targets := [{ Name := "w*b" }, { Name := "web" }] } : Config).expandTargets "w*b" = .ok ["w*b"] ∧
    pathMatch "w*b" "web" = .ok true ∧
    ({ Targets := [{ Name := "web" }, { Name := "api" }, { Name := "web2" }] } : Config).expandTargets "we*" = .ok ["web", "web2"] ∧
    ({ Targets := [{ Name := "web" }] } : Config).expandTargets "zzz*" =
      .error "could not find any target matching 'zzz*'" := by
  refine ⟨?_, ?_, by decide, by decide, by decide, by decide⟩
  · intro c pattern hex
    obtain ⟨t, ht, hn⟩ := hex
    rw [Config.expandTargets,
      if_pos (by simp only [List.any_eq_true]; exact ⟨t, ht, by simp [hn]⟩)]
  · intro c pattern hnone hall
    have hno : ¬(c.Targets.any fun t => t.Name == pattern) = true := by
      intro hcontra
      obtain ⟨t, ht, hbeq⟩ := List.any_eq_true.mp hcontra
      exact hnone t ht (by simpa using hbeq)
    rw [Config.expandTargets, if_neg hno, matchLoop_ok pattern c.Targets [] hall]
    simp

/-- Witness for C8: both universal parts instantiated at concrete
configs. -/
theorem claim_C8_witness :
    ({ Targets := [{ Name := "api" }] } : Config).expandTargets "api" = .ok ["api"] ∧
    ({ Targets := [{ Name := "api" }] } : Config).expandTargets "a*" =
      (if ((({ Targets := [{ Name := "api" }] } : Config).Targets.filter
          (fun t => decide (pathMatch "a*" t.Name = .ok true))).map Target.Name) = []
       then .error ("could not find any target matching '" ++ "a*" ++ "'")
       else .ok ((({ Targets := [{ Name := "api" }] } : Config).Targets.filter
          (fun t => decide (pathMatch "a*" t.Name = .ok true))).map Target.Name)) := by
  constructor
  · exact claim_C8.1 _ "api" ⟨{ Name := "api" }, by decide, rfl⟩
  · refine claim_C8.2.1 _ "a*" (by decide) ?_
    intro t ht
    rcases List.mem_singleton.mp ht with rfl
    exact ⟨true, by decide⟩

/-- Defaulting an unset option is `Option.or` with the default. -/
theorem ite_isNone_or {α : Type} (o b : Option α) :
    (if o.isNone then b else o) = o.or b := by
  cases o <;> simp [Option.or]

/-- `Merge` on each pointer-valued (replace-wins) field is `Option.or`:
the source value wins when set. -/
theorem Merge_Context (t t2 : Target) : (t.Merge t2).Context = t2.Context.or t.Context := by
  cases h : t2.Context <;> simp [Target.Merge, Option.or, h]

theorem Merge_Dockerfile (t t2 : Target) : (t.Merge t2).Dockerfile = t2.Dockerfile.or t.Dockerfile := by
  cases h : t2.Dockerfile <;> simp [Target.Merge, Option.or, h]

theorem Merge_DockerfileInline (t t2 : Target) : (t.Merge t2).DockerfileInline = t2.DockerfileInline.or t.DockerfileInline := by
  cases h : t2.DockerfileInline <;> simp [Target.Merge, Option.or, h]

theorem Merge_TargetStage (t t2 : Target) : (t.Merge t2).TargetStage = t2.TargetStage.or t.TargetStage := by
  cases h : t2.TargetStage <;> simp [Target.Merge, Option.or, h]

theorem Merge_Call (t t2 : Target) : (t.Merge t2).Call = t2.Call.or t.Call := by
  cases h : t2.Call <;> simp [Target.Merge, Option.or, h]

theorem Merge_Pull (t t2 : Target) : (t.Merge t2).Pull = t2.Pull.or t.Pull := by
  cases h : t2.Pull <;> simp [Target.Merge, Option.or, h]

theorem Merge_NoCache (t t2 : Target) : (t.Merge t2).NoCache = t2.NoCache.or t.NoCache := by
  cases h : t2.NoCache <;> simp [Target.Merge, Option.or, h]

theorem Merge_NetworkMode (t t2 : Target) : (t.Merge t2).NetworkMode = t2.NetworkMode.or t.NetworkMode := by
  cases h : t2.NetworkMode <;> simp [Target.Merge, Option.or, h]

theorem Merge_ShmSize (t t2 : Target) : (t.Merge t2).ShmSize = t2.ShmSize.or t.ShmSize := by
  cases h : t2.ShmSize <;> simp [Target.Merge, Option.or, h]

/-- `normalize` leaves every pointer-valued scalar field unchanged. -/
theorem norm_Context (t : Target) : t.normalize.Context = t.Context := rfl
theorem norm_Dockerfile (t : Target) : t.normalize.Dockerfile = t.Dockerfile := rfl
theorem norm_DockerfileInline (t : Target) : t.normalize.DockerfileInline = t.DockerfileInline := rfl
theorem norm_TargetStage (t : Target) : t.normalize.TargetStage = t.TargetStage := rfl
theorem norm_Call (t : Target) : t.normalize.Call = t.Call := rfl
theorem norm_Pull (t : Target) : t.normalize.Pull = t.Pull := rfl
theorem norm_NoCache (t : Target) : t.normalize.NoCache = t.NoCache := rfl
theorem norm_NetworkMode (t : Target) : t.normalize.NetworkMode = t.NetworkMode := rfl
theorem norm_ShmSize (t : Target) : t.normalize.ShmSize = t.ShmSize := rfl


/-- C1: inheritance precedence.  For a target `t` with
`inherits = ["a", "b"]` (targets otherwise arbitrary), resolution
succeeds and every pointer-valued replace-wins field of the result is
`t`'s own value when set, else `b`'s when set (the later parent wins,
also when both parents set it), else `a`'s — i.e. the
`own.or (b.or a)` chain — with `context`/`dockerfile` falling back to
their defaults when unset everywhere.  This is exactly the merge order:
zero target, parents in list order, own declaration on top. -/
theorem claim_C1 (tA tB tT : Target)
    (hA : tA.Name = "a") (hB : tB.Name = "b") (hT : tT.Name = "t")
    (hAI : tA.Inherits = []) (hBI : tB.Inherits = []) (hTI : tT.Inherits = ["a", "b"]) :
    ((⟨[], [tA, tB, tT]⟩ : Config).ResolveTarget "t" [] {}).map (Except.map fun _ => ()) = some (.ok ()) ∧
    ∀ u e, (⟨[], [tA, tB, tT]⟩ : Config).ResolveTarget "t" [] {} = some (.ok (u, e)) →
      u.Context = (tT.Context.or (tB.Context.or tA.Context)).or (some ".") ∧
      u.Dockerfile = (tT.Dockerfile.or (tB.Dockerfile.or tA.Dockerfile)).or (some "Dockerfile") ∧
      u.DockerfileInline = tT.DockerfileInline.or (tB.DockerfileInline.or tA.DockerfileInline) ∧
      u.TargetStage = tT.TargetStage.or (tB.TargetStage.or tA.TargetStage) ∧
      u.Call = tT.Call.or (tB.Call.or tA.Call) ∧
      u.Pull = tT.Pull.or (tB.Pull.or tA.Pull) ∧
      u.NoCache = tT.NoCache.or (tB.NoCache.or tA.NoCache) ∧
      u.NetworkMode = tT.NetworkMode.or (tB.NetworkMode.or tA.NetworkMode) ∧
      u.ShmSize = tT.ShmSize.or (tB.ShmSize.or tA.ShmSize) := by
  constructor
  · simp [Config.ResolveTarget, Config.target, targetListGo, mapGet, mapSet,
      List.find?, hA, hB, hT, hAI, hBI, hTI, Target.AddOverrides, List.foldlM, pure, Except.pure, Except.map]
  · intro u e h
    obtain ⟨u0, vis, e3, hu0, he3, hinh, hctx, hdf, hent, hnm, hdfi, hts, hcall,
      hpull, hnc, hshm, htags⟩ := ResolveTarget_ok_shape _ _ _ _ _ _ h
    have hw : ∃ vis2 : List (String × Option Target),
        (⟨[], [tA, tB, tT]⟩ : Config).target
          ((⟨[], [tA, tB, tT]⟩ : Config).Targets.length + 1) "t" [] [] {} =
        some (.ok (some (((defaultTarget.Merge ((({} : Target).Merge (((defaultTarget.Merge ({} : Target)).Merge tA).normalize)).Merge (((defaultTarget.Merge ({} : Target)).Merge tB).normalize))).Merge tT).normalize), vis2, ({} : EntitlementConf))) := by
      apply Exists.intro
      simp [Config.target, targetListGo, mapGet, mapSet, List.find?,
        hA, hB, hT, hAI, hBI, hTI,
        Target.AddOverrides, List.foldlM, pure, Except.pure]
      rfl
    obtain ⟨vis2, hw⟩ := hw
    rw [hw] at hu0
    simp only [Option.some.injEq, Except.ok.injEq, Prod.mk.injEq] at hu0
    obtain ⟨hwu, -, -⟩ := hu0
    subst hwu
    refine ⟨?_, ?_, ?_, ?_, ?_, ?_, ?_, ?_, ?_⟩
    · rw [hctx, ite_isNone_or]
      simp only [Merge_Context, norm_Context, defaultTarget, Option.or_none, Option.none_or]
    · rw [hdf, ite_isNone_or]
      simp only [Merge_Dockerfile, norm_Dockerfile, defaultTarget, Option.or_none, Option.none_or]
    · rw [hdfi]
      simp only [Merge_DockerfileInline, norm_DockerfileInline, defaultTarget, Option.or_none, Option.none_or]
    · rw [hts]
      simp only [Merge_TargetStage, norm_TargetStage, defaultTarget, Option.or_none, Option.none_or]
    · rw [hcall]
      simp only [Merge_Call, norm_Call, defaultTarget, Option.or_none, Option.none_or]
    · rw [hpull]
      simp only [Merge_Pull, norm_Pull, defaultTarget, Option.or_none, Option.none_or]
    · rw [hnc]
      simp only [Merge_NoCache, norm_NoCache, defaultTarget, Option.or_none, Option.none_or]
    · rw [hnm]
      simp only [Merge_NetworkMode, norm_NetworkMode, defaultTarget, Option.or_none, Option.none_or]
    · rw [hshm]
      simp only [Merge_ShmSize, norm_ShmSize, defaultTarget, Option.or_none, Option.none_or]

/-- Witness for C1 at concrete targets exercising all three precedence
cases (own wins, later parent wins, single-parent value survives). -/
theorem claim_C1_witness :
    ({ Context := some "ct", Dockerfile := some "da", NetworkMode := some "nb",
       ShmSize := some "sa", Call := some "cb" } : Target).Context =
      (({ Name := "t", Inherits := ["a", "b"], Context := some "ct" } : Target).Context.or
        (({ Name := "b", NetworkMode := some "nb", Call := some "cb" } : Target).Context.or
          ({ Name := "a", NetworkMode := some "na", ShmSize := some "sa", Dockerfile := some "da" } : Target).Context)).or
        (some ".") ∧
    ({ Context := some "ct", Dockerfile := some "da", NetworkMode := some "nb",
       ShmSize := some "sa", Call := some "cb" } : Target).Dockerfile =
      (({ Name := "t", Inherits := ["a", "b"], Context := some "ct" } : Target).Dockerfile.or
        (({ Name := "b", NetworkMode := some "nb", Call := some "cb" } : Target).Dockerfile.or
          ({ Name := "a", NetworkMode := some "na", ShmSize := some "sa", Dockerfile := some "da" } : Target).Dockerfile)).or
        (some "Dockerfile") ∧
    ({ Context := some "ct", Dockerfile := some "da", NetworkMode := some "nb",
       ShmSize := some "sa", Call := some "cb" } : Target).DockerfileInline =
      ({ Name := "t", Inherits := ["a", "b"], Context := some "ct" } : Target).DockerfileInline.or
        (({ Name := "b", NetworkMode := some "nb", Call := some "cb" } : Target).DockerfileInline.or
          ({ Name := "a", NetworkMode := some "na", ShmSize := some "sa", Dockerfile := some "da" } : Target).DockerfileInline) ∧
    ({ Context := some "ct", Dockerfile := some "da", NetworkMode := some "nb",
       ShmSize := some "sa", Call := some "cb" } : Target).TargetStage =
      ({ Name := "t", Inherits := ["a", "b"], Context := some "ct" } : Target).TargetStage.or
        (({ Name := "b", NetworkMode := some "nb", Call := some "cb" } : Target).TargetStage.or
          ({ Name := "a", NetworkMode := some "na", ShmSize := some "sa", Dockerfile := some "da" } : Target).TargetStage) ∧
    ({ Context := some "ct", Dockerfile := some "da", NetworkMode := some "nb",
       ShmSize := some "sa", Call := some "cb" } : Target).Call =
      ({ Name := "t", Inherits := ["a", "b"], Context := some "ct" } : Target).Call.or
        (({ Name := "b", NetworkMode := some "nb", Call := some "cb" } : Target).Call.or
          ({ Name := "a", NetworkMode := some "na", ShmSize := some "sa", Dockerfile := some "da" } : Target).Call) ∧
    ({ Context := some "ct", Dockerfile := some "da", NetworkMode := some "nb",
       ShmSize := some "sa", Call := some "cb" } : Target).Pull =
      ({ Name := "t", Inherits := ["a", "b"], Context := some "ct" } : Target).Pull.or
        (({ Name := "b", NetworkMode := some "nb", Call := some "cb" } : Target).Pull.or
          ({ Name := "a", NetworkMode := some "na", ShmSize := some "sa", Dockerfile := some "da" } : Target).Pull) ∧
    ({ Context := some "ct", Dockerfile := some "da", NetworkMode := some "nb",
       ShmSize := some "sa", Call := some "cb" } : Target).NoCache =
      ({ Name := "t", Inherits := ["a", "b"], Context := some "ct" } : Target).NoCache.or
        (({ Name := "b", NetworkMode := some "nb", Call := some "cb" } : Target).NoCache.or
          ({ Name := "a", NetworkMode := some "na", ShmSize := some "sa", Dockerfile := some "da" } : Target).NoCache) ∧
    ({ Context := some "ct", Dockerfile := some "da", NetworkMode := some "nb",
       ShmSize := some "sa", Call := some "cb" } : Target).NetworkMode =
      ({ Name := "t", Inherits := ["a", "b"], Context := some "ct" } : Target).NetworkMode.or
        (({ Name := "b", NetworkMode := some "nb", Call := some "cb" } : Target).NetworkMode.or
          ({ Name := "a", NetworkMode := some "na", ShmSize := some "sa", Dockerfile := some "da" } : Target).NetworkMode) ∧
    ({ Context := some "ct", Dockerfile := some "da", NetworkMode := some "nb",
       ShmSize := some "sa", Call := some "cb" } : Target).ShmSize =
      ({ Name := "t", Inherits := ["a", "b"], Context := some "ct" } : Target).ShmSize.or
        (({ Name := "b", NetworkMode := some "nb", Call := some "cb" } : Target).ShmSize.or
          ({ Name := "a", NetworkMode := some "na", ShmSize := some "sa", Dockerfile := some "da" } : Target).ShmSize) :=
  (claim_C1 { Name := "a", NetworkMode := some "na", ShmSize := some "sa", Dockerfile := some "da" }
    { Name := "b", NetworkMode := some "nb", Call := some "cb" }
    { Name := "t", Inherits := ["a", "b"], Context := some "ct" }
    rfl rfl rfl rfl rfl rfl).2
    { Context := some "ct", Dockerfile := some "da", NetworkMode := some "nb",
      ShmSize := some "sa", Call := some "cb" } {} (by decide)


/-! ## C9: totality and stability of group expansion -/

theorem mapGet_mapSet_self {α : Type} (m : List (String × α)) (k : String) (v : α) :
    mapGet (mapSet m k v) k = some v := by
  induction m with
  | nil => simp [mapGet, mapSet]
  | cons p rest ih =>
    obtain ⟨k2, w⟩ := p
    by_cases h : k2 = k
    · simp [mapGet, mapSet, h]
    · simp [mapGet, mapSet, h, ih]

theorem mapGet_mapSet_ne {α : Type} (m : List (String × α)) (k k2 : String) (v : α)
    (h : k2 ≠ k) : mapGet (mapSet m k v) k2 = mapGet m k2 := by
  have h2 : k ≠ k2 := fun hk => h hk.symm
  induction m with
  | nil => simp [mapGet, mapSet, h2]
  | cons p rest ih =>
    obtain ⟨k3, w⟩ := p
    by_cases h3 : k3 = k
    · subst h3
      simp [mapGet, mapSet, h2]
    · by_cases h4 : k3 = k2
      · simp [mapGet, mapSet, h3, h4, h]
      · simp [mapGet, mapSet, h3, h4, ih]

theorem mapGet_mapSet_isSome {α : Type} (m : List (String × α)) (k k2 : String) (v : α)
    (h : (mapGet m k2).isSome) : (mapGet (mapSet m k v) k2).isSome := by
  by_cases hk : k2 = k
  · subst hk; simp [mapGet_mapSet_self]
  · rwa [mapGet_mapSet_ne m k k2 v hk]

theorem filter_length_mono {α : Type} (l : List α) (p1 p2 : α → Bool)
    (h : ∀ x ∈ l, p2 x = true → p1 x = true) :
    (l.filter p2).length ≤ (l.filter p1).length := by
  induction l with
  | nil => simp
  | cons x xs ih =>
    have hx := h x (List.mem_cons_self ..)
    have ihx := ih fun y hy => h y (.tail _ hy)
    cases h2 : p2 x with
    | true => simp [List.filter_cons, h2, hx h2, ihx]
    | false =>
      cases h1 : p1 x <;> simp [List.filter_cons, h2, h1] <;> omega

theorem filter_length_strict {α : Type} (l : List α) (p1 p2 : α → Bool)
    (h : ∀ x ∈ l, p2 x = true → p1 x = true) (a : α) (ha : a ∈ l)
    (h1 : p1 a = true) (h2 : p2 a = false) :
    (l.filter p2).length < (l.filter p1).length := by
  induction l with
  | nil => cases ha
  | cons x xs ih =>
    have ihmono := filter_length_mono xs p1 p2 fun y hy => h y (.tail _ hy)
    rcases List.mem_cons.mp ha with rfl | ha2
    · simp only [List.filter_cons, h1, h2]
      simp
      omega
    · have hlt := ih (fun y hy => h y (.tail _ hy)) ha2
      cases hx2 : p2 x with
      | true =>
        have hx1 := h x (List.mem_cons_self ..) hx2
        simp only [List.filter_cons, hx2, hx1]
        simpa using hlt
      | false =>
        cases hx1 : p1 x <;> simp only [List.filter_cons, hx2, hx1] <;> simp <;> omega

theorem unvisited_mono (c : Config) (v1 v2 : List (String × Visit))
    (h : ∀ k, (mapGet v1 k).isSome → (mapGet v2 k).isSome) :
    unvisitedCount c v2 ≤ unvisitedCount c v1 := by
  refine filter_length_mono _ _ _ fun g _ hg => ?_
  cases ho : mapGet v1 g.Name with
  | none => simp
  | some x =>
    have hs := h g.Name (by simp [ho])
    rw [Option.isNone_iff_eq_none] at hg
    rw [hg] at hs
    simp at hs

theorem unvisited_strict (c : Config) (vis : List (String × Visit))
    (name : String) (g : Group) (hg : g ∈ c.Groups) (hname : g.Name = name)
    (hvis : mapGet vis name = none) (x : Visit) :
    unvisitedCount c (mapSet vis name x) < unvisitedCount c vis := by
  refine filter_length_strict _ _ _ ?_ g hg ?_ ?_
  · intro y _ hyp
    by_cases hk : y.Name = name
    · rw [hk, mapGet_mapSet_self] at hyp
      simp at hyp
    · rwa [mapGet_mapSet_ne _ _ _ _ hk] at hyp
  · simp [hname, hvis]
  · rw [hname, mapGet_mapSet_self]
    simp

theorem groupListGo_keys_mono
    (rec : String → List (String × Visit) →
      Option ((List String × List String) × List (String × Visit)))
    (hrec : ∀ t vis r vis2, rec t vis = some (r, vis2) →
      ∀ k, (mapGet vis k).isSome → (mapGet vis2 k).isSome) :
    ∀ (ts targets groups : List String) (vis : List (String × Visit)) out,
      groupListGo rec ts targets groups vis = some out →
      ∀ k, (mapGet vis k).isSome → (mapGet out.2.2 k).isSome := by
  intro ts
  induction ts with
  | nil =>
    intro targets groups vis out h k hk
    simp only [groupListGo] at h
    obtain rfl := Option.some.inj h
    exact hk
  | cons t ts ih =>
    intro targets groups vis out h k hk
    simp only [groupListGo] at h
    cases hr : rec t vis with
    | none => simp [hr] at h
    | some pr =>
      obtain ⟨⟨tt, tg⟩, vis2⟩ := pr
      simp only [hr] at h
      exact ih _ _ _ _ h k (hrec t vis _ _ hr k hk)

theorem group_keys_mono (c : Config) : ∀ (fuel : Nat) (name : String) vis r vis2,
    c.group fuel name vis = some (r, vis2) →
    ∀ k, (mapGet vis k).isSome → (mapGet vis2 k).isSome := by
  intro fuel
  induction fuel with
  | zero => intro name vis r vis2 h; simp [Config.group] at h
  | succ fuel ih =>
    intro name vis r vis2 h k hk
    rw [Config.group] at h
    cases hv : mapGet vis name with
    | some v =>
      simp only [hv, Option.some.injEq, Prod.mk.injEq] at h
      obtain ⟨h1, h2⟩ := h
      subst h2
      exact hk
    | none =>
      simp only [hv] at h
      cases hf : c.Groups.find? (fun g => g.Name == name) with
      | none =>
        simp only [hf, Option.some.injEq, Prod.mk.injEq] at h
        obtain ⟨h1, h2⟩ := h
        subst h2
        exact hk
      | some g =>
        simp only [hf] at h
        cases hl : groupListGo (fun t vis => c.group fuel t vis) g.Targets []
            [name] (mapSet vis name {}) with
        | none => simp [hl] at h
        | some out =>
          obtain ⟨ts3, gs3, vis3⟩ := out
          simp only [hl] at h
          have h2 := groupListGo_keys_mono _
            (fun t v r v2 hh => ih t v r v2 hh) g.Targets [] [name]
            (mapSet vis name {}) (ts3, gs3, vis3) hl k
            (mapGet_mapSet_isSome _ _ _ _ hk)
          simp only [Option.some.injEq, Prod.mk.injEq] at h
          obtain ⟨h3, h4⟩ := h
          subst h4
          exact mapGet_mapSet_isSome _ _ _ _ h2

theorem groupListGo_mono
    (rec1 rec2 : String → List (String × Visit) →
      Option ((List String × List String) × List (String × Visit)))
    (h12 : ∀ t vis r, rec1 t vis = some r → rec2 t vis = some r) :
    ∀ (ts targets groups : List String) (vis : List (String × Visit)) out,
      groupListGo rec1 ts targets groups vis = some out →
      groupListGo rec2 ts targets groups vis = some out := by
  intro ts
  induction ts with
  | nil => intro targets groups vis out h; exact h
  | cons t ts ih =>
    intro targets groups vis out h
    simp only [groupListGo] at h ⊢
    cases hr : rec1 t vis with
    | none => simp [hr] at h
    | some pr =>
      obtain ⟨⟨tt, tg⟩, vis2⟩ := pr
      simp only [hr] at h
      simp only [h12 t vis _ hr]
      exact ih _ _ _ _ h

theorem group_mono (c : Config) : ∀ (fuel : Nat) (name : String) vis out,
    c.group fuel name vis = some out → c.group (fuel + 1) name vis = some out := by
  intro fuel
  induction fuel with
  | zero => intro name vis out h; simp [Config.group] at h
  | succ fuel ih =>
    intro name vis out h
    rw [Config.group] at h ⊢
    cases hv : mapGet vis name with
    | some v => simpa only [hv] using h
    | none =>
      simp only [hv] at h ⊢
      cases hf : c.Groups.find? (fun g => g.Name == name) with
      | none => simpa only [hf] using h
      | some g =>
        simp only [hf] at h ⊢
        cases hl : groupListGo (fun t vis => c.group fuel t vis) g.Targets []
            [name] (mapSet vis name {}) with
        | none => simp [hl] at h
        | some res =>
          simp only [hl] at h
          have hl2 := groupListGo_mono _ _ (fun t vis r hh => ih t vis r hh)
            g.Targets [] [name] (mapSet vis name {}) res hl
          simp only [hl2]
          exact h

theorem group_fuel_ge (c : Config) (f1 f2 : Nat) (name : String)
    (vis : List (String × Visit)) out (h : c.group f1 name vis = some out)
    (hle : f1 ≤ f2) : c.group f2 name vis = some out := by
  induction hle with
  | refl => exact h
  | step _ ih => exact group_mono c _ name vis out ih

theorem groupListGo_isSome (c : Config) (f m : Nat)
    (hrec : ∀ t vis, unvisitedCount c vis ≤ m → (c.group f t vis).isSome) :
    ∀ (ts targets groups : List String) (vis : List (String × Visit)),
      unvisitedCount c vis ≤ m →
      (groupListGo (fun t v => c.group f t v) ts targets groups vis).isSome := by
  intro ts
  induction ts with
  | nil => intro targets groups vis _; simp [groupListGo]
  | cons t ts ih =>
    intro targets groups vis hv
    have hs := hrec t vis hv
    cases hr : c.group f t vis with
    | none => rw [hr] at hs; simp at hs
    | some pr =>
      obtain ⟨⟨tt, tg⟩, vis2⟩ := pr
      simp only [groupListGo, hr]
      refine ih _ _ vis2 ?_
      exact le_trans
        (unvisited_mono c vis vis2 (group_keys_mono c f t vis _ _ hr)) hv

theorem group_saturates (c : Config) :
    ∀ (k : Nat) (name : String) (vis : List (String × Visit)),
      unvisitedCount c vis ≤ k → (c.group (k + 1) name vis).isSome := by
  intro k
  induction k using Nat.strong_induction_on with
  | _ k ih =>
    intro name vis hk
    rw [Config.group]
    cases hv : mapGet vis name with
    | some v => simp [hv]
    | none =>
      simp only [hv]
      cases hf : c.Groups.find? (fun g => g.Name == name) with
      | none => simp [hf]
      | some g =>
        simp only [hf]
        have hgmem : g ∈ c.Groups := List.mem_of_find?_eq_some hf
        have hgname : g.Name = name := by
          have := List.find?_some hf
          simpa using this
        have hdec := unvisited_strict c vis name g hgmem hgname hv ({} : Visit)
        have hrec : ∀ t v2, unvisitedCount c v2 ≤ k - 1 →
            (c.group k t v2).isSome := by
          intro t v2 hv2
          have h0 := ih (k - 1) (by omega) t v2 hv2
          rwa [show k - 1 + 1 = k from by omega] at h0
        have hlist := groupListGo_isSome c k (k - 1) hrec g.Targets [] [name]
          (mapSet vis name {}) (by omega)
        cases hl : groupListGo (fun t v => c.group k t v) g.Targets [] [name]
            (mapSet vis name {}) with
        | none => rw [hl] at hlist; simp at hlist
        | some out =>
          obtain ⟨ts3, gs3, vis3⟩ := out
          simp [hl]

/-- C9: group expansion totality and idempotence.  For every config and
every requested name — including a group that lists itself as a member,
directly or through other groups — `ResolveGroup` yields a result (the
fuel `c.Groups.length + 1` never runs out, because the in-progress memo
entry registered before recursing strictly shrinks the unvisited-group
measure), and that result is the unique value produced at every
sufficient fuel, so repeated calls return equal results. -/
theorem claim_C9 (c : Config) (name : String) :
    ∃ r, c.ResolveGroup name = some r ∧
      ∀ fuel, c.Groups.length + 1 ≤ fuel →
        (c.group fuel name []).map
          (fun p => (dedupSlice p.1.1, dedupSlice p.1.2)) = some r := by
  have h0 : unvisitedCount c [] ≤ c.Groups.length := List.length_filter_le _ _
  have hs := group_saturates c c.Groups.length name [] h0
  cases hout : c.group (c.Groups.length + 1) name [] with
  | none => rw [hout] at hs; simp at hs
  | some out =>
    obtain ⟨⟨ts0, gs0⟩, vis0⟩ := out
    refine ⟨(dedupSlice ts0, dedupSlice gs0), ?_, ?_⟩
    · simp only [Config.ResolveGroup, hout]
    · intro fuel hf
      rw [group_fuel_ge c _ fuel name [] _ hout hf]
      rfl

theorem claim_C9_witness :
    ({ Groups := [{ Name := "G", Targets := ["G"] }] } : Config).ResolveGroup
        "G" = some (["G"], ["G"]) ∧
      (({ Groups := [{ Name := "G", Targets := ["G"] }] } : Config).group 7
          "G" []).map (fun p => (dedupSlice p.1.1, dedupSlice p.1.2)) =
        some (["G"], ["G"]) := by
  obtain ⟨r, h1, h2⟩ :=
    claim_C9 { Groups := [{ Name := "G", Targets := ["G"] }] } "G"
  have h3 := h2 7 (by decide)
  have hr : r = (["G"], ["G"]) := by
    have h4 : ({ Groups := [{ Name := "G", Targets := ["G"] }] } :
        Config).ResolveGroup "G" = some (["G"], ["G"]) := by decide
    rw [h1] at h4
    exact Option.some.inj h4
  subst hr
  exact ⟨h1, h3⟩

end Bake
